import Mathlib

/-!
Verification of the `tdb` command-line loader (`src/tdb/cli.py`).

The repository orchestrates an embedded SQL engine: it topologically sorts the
tables of a JSON schema profile (`_toposort_tables`), bulk-loads CSVs through
untyped staging tables into constrained tables (`build`), and computes
primary-key and foreign-key integrity metrics (`_pk_metrics`, `_fk_orphans`).

This file gives a shallow embedding of those routines.  Pure Python code
(`_toposort_tables`, the orchestration in `build`) is translated directly.
The SQL statements the code sends to the engine are embedded by their standard
SQL semantics over tables represented as lists of rows: `COUNT(*)`,
`COUNT(DISTINCT …)` (which ignores NULL arguments), `SUM` over a boolean
predicate (NULL on empty input), equality in join conditions (never true
against NULL), and `LEFT JOIN` padding unmatched rows with NULLs.
-/

/-! ### Generic list helpers -/

/-- Lexicographic comparison of character lists (Python string `<=`). -/
def charListLe : List Char → List Char → Bool
  | [], _ => true
  | _ :: _, [] => false
  | a :: as, b :: bs => if a = b then charListLe as bs else decide (a < b)

/-- String comparison by code points, as Python compares `str`. -/
def strLe (a b : String) : Bool := charListLe a.data b.data

/-- Insert into a sorted list (auxiliary for `sortS`). -/
def insertSorted (x : String) : List String → List String
  | [] => [x]
  | y :: ys => if strLe x y then x :: y :: ys else y :: insertSorted x ys

/-- Python's `sorted` on a list of strings (insertion sort; order by `strLe`). -/
def sortS : List String → List String
  | [] => []
  | x :: xs => insertSorted x (sortS xs)

/-- Position of the first occurrence of `x` in `l` (Python `list.index`). -/
def posIn : List String → String → Nat
  | [], _ => 0
  | a :: l, x => if a = x then 0 else posIn l x + 1

/-! ### Data model: schema profiles (`.tdb_profile.json`) -/

/-- A foreign-key declaration: JSON object
`{"cols": [...], "ref_table": "...", "ref_cols": [...]}`. -/
structure FKSpec where
  cols : List String
  ref_table : String
  ref_cols : List String
deriving DecidableEq

/-- A table entry of the profile: JSON object `{"pk": [...], "fks": [...]}`. -/
structure TableSpec where
  pk : List String
  fks : List FKSpec
deriving DecidableEq

/-- The `"tables"` mapping of a schema profile, in insertion order.
Python dict semantics guarantee the table names are pairwise distinct. -/
abbrev Profile := List (String × TableSpec)

/-- `list(profile["tables"].keys())`. -/
def tableNames (prof : Profile) : List String := prof.map (·.1)

/-- The dependency sets built by `_toposort_tables`:
`deps[t] = {fk["ref_table"] for fk in spec.get("fks", [])}`. -/
def depsOf (prof : Profile) (t : String) : List String :=
  (prof.filter (fun p => decide (p.1 = t))).flatMap (fun p => p.2.fks.map (·.ref_table))

/-! ### Dependency Orderer (`_toposort_tables`, cli.py lines 69-85) -/

/-- The `ready` test: `deps[t].issubset(set(ordered))`. -/
def readyPred (deps : String → List String) (ordered : List String) (t : String) : Bool :=
  (deps t).all (fun d => decide (d ∈ ordered))

/-- `ready = sorted([t for t in remaining if deps[t].issubset(set(ordered))])`. -/
def readyOf (deps : String → List String) (ordered remaining : List String) : List String :=
  sortS (remaining.filter (readyPred deps ordered))

/-- The set subtraction `remaining -= set(ready)` of one loop iteration. -/
def dropReady (deps : String → List String) (ordered remaining : List String) :
    List String :=
  remaining.filter (fun t => decide (t ∉ readyOf deps ordered remaining))

/-- The `while remaining:` loop of `_toposort_tables`, with an explicit bound
`fuel` on the number of iterations.  Each iteration that recurses strictly
shrinks `remaining`, so any `fuel > remaining.length` reproduces the Python
loop exactly (see `toposortGo_fuel_irrel`); the `fuel = 0` base case is
unreachable for such fuels.  When no table is ready the remaining tables are
appended in sorted order and the loop breaks. -/
def toposortGo (deps : String → List String) : Nat → List String → List String → List String
  | 0, ordered, remaining => ordered ++ sortS remaining
  | fuel + 1, ordered, remaining =>
    if remaining.isEmpty then ordered
    else if (readyOf deps ordered remaining).isEmpty then ordered ++ sortS remaining
    else toposortGo deps fuel (ordered ++ readyOf deps ordered remaining)
      (dropReady deps ordered remaining)

/-- `_toposort_tables(profile)`.  `remaining` starts as the table names of the
profile, `ordered` as `[]`; the fuel bound `length + 1` covers every iteration
the Python `while` loop can perform. -/
def toposortTables (prof : Profile) : List String :=
  toposortGo (depsOf prof) ((tableNames prof).length + 1) [] (tableNames prof)

/-! ### Profiles of the spec's examples -/

/-- The profile of the spec's acyclic two-table example:
`{"tables":{"a":{"pk":[],"fks":[]},"b":{"pk":[],"fks":[{"cols":["a_id"],"ref_table":"a","ref_cols":["id"]}]}}}`. -/
def exProfAB : Profile :=
  [("a", ⟨[], []⟩), ("b", ⟨[], [⟨["a_id"], "a", ["id"]⟩]⟩)]

/-- The profile of the spec's mutual-cycle example:
`x` references `y` and `y` references `x`. -/
def exProfXY : Profile :=
  [("x", ⟨[], [⟨["y_id"], "y", ["id"]⟩]⟩), ("y", ⟨[], [⟨["x_id"], "x", ["id"]⟩]⟩)]

/-- An acyclic profile with a dangling reference: `a` references `b`, and `b`
references `z`, which is absent from the profile. -/
def exProfDangling : Profile :=
  [("a", ⟨[], [⟨["b_id"], "b", ["id"]⟩]⟩), ("b", ⟨[], [⟨["z_id"], "z", ["id"]⟩]⟩)]

/-- A profile with a cycle (`c → a → c`) and an isolated table `b`. -/
def exProfCycle3 : Profile :=
  [("c", ⟨[], [⟨["a_id"], "a", ["id"]⟩]⟩),
   ("a", ⟨[], [⟨["c_id"], "c", ["id"]⟩]⟩),
   ("b", ⟨[], []⟩)]

/-! ### Rows and SQL aggregate semantics (`_pk_metrics`, `_fk_orphans`) -/

/-- A row of a table: each column name holds a value or SQL NULL.
`V` is the engine value type; the examples use `Int`. -/
def Row (V : Type) := String → Option V

/-- A database: tables by name, each a list of rows (`duckdb` connection state). -/
abbrev DB (V : Type) := List (String × List (Row V))

/-- The projection of a row onto the primary-key columns, as the SQL row
expression `(c1, ..., ck)`. -/
def keyTuple {V : Type} (cols : List String) (r : Row V) : List (Option V) :=
  cols.map r

/-- `c1 IS NULL OR c2 IS NULL OR ...` over the key columns of one row. -/
def anyNullKey {V : Type} (cols : List String) (r : Row V) : Bool :=
  cols.any (fun c => (r c).isNone)

/-- SQL `SUM` over a boolean column: NULL on empty input, else the number of
`true` values (booleans sum as 0/1). -/
def sqlSumBool (bs : List Bool) : Option Nat :=
  if bs.isEmpty then none else some (bs.count true)

/-- The `distinct_expr` of `_pk_metrics`: `COUNT(DISTINCT c)` for a single key
column ignores NULL values; `COUNT(DISTINCT (c1, ..., ck))` for a composite key
counts distinct key tuples (a row expression with NULL fields is itself
non-NULL, and NULL fields compare equal under DISTINCT grouping). -/
def distinctCount {V : Type} [DecidableEq V] (rows : List (Row V)) (cols : List String) :
    Nat :=
  match cols with
  | [] => 0
  | [c] => ((rows.filterMap (fun r => r c)).dedup).length
  | _ => ((rows.map (keyTuple cols)).dedup).length

/-- The record built by `_pk_metrics` (fields `n`, `distinct`, `null`, `dup`). -/
structure PkStats where
  n : Int
  distinct : Int
  nullN : Int
  dup : Int
deriving DecidableEq

/-- `_pk_metrics(con, table, cols)` (cli.py lines 88-116).  The query computes
`COUNT(*)`, the distinct count, `SUM(null_cond)` and `COUNT(*) - distinct`;
Python then applies `int()` to each.  `SUM` over an empty table is SQL NULL,
fetched as Python `None`, and `int(None)` raises `TypeError`: that failure is
the `none` result. -/
def pkMetrics {V : Type} [DecidableEq V] (rows : List (Row V)) (cols : List String) :
    Option PkStats :=
  let n := rows.length
  let d := distinctCount rows cols
  match sqlSumBool (rows.map (anyNullKey cols)) with
  | none => none
  | some k => some ⟨(n : Int), (d : Int), (k : Int), (n : Int) - (d : Int)⟩

/-- SQL equality in a join condition: true only when both sides are non-NULL
and equal (`NULL = x` is never true). -/
def sqlEqOpt {V : Type} [DecidableEq V] (a b : Option V) : Bool :=
  match a, b with
  | some x, some y => decide (x = y)
  | _, _ => false

/-- The join condition of `_fk_orphans`:
`r.rc1 = s.sc1 AND ... AND r.rck = s.sck`. -/
def fkRowMatch {V : Type} [DecidableEq V] (srcCols refCols : List String)
    (s r : Row V) : Bool :=
  (List.zip srcCols refCols).all (fun p => sqlEqOpt (r p.2) (s p.1))

/-- `_fk_orphans(con, src_table, src_cols, ref_table, ref_cols)` (cli.py lines
119-130):  `SELECT COUNT(*) FROM s LEFT JOIN r ON ... WHERE r.rc1 IS NULL`.
Each source row joins to every matching referenced row, or to a single
NULL-padded row when nothing matches; the count keeps joined rows whose first
referenced key column is NULL. -/
def fkOrphans {V : Type} [DecidableEq V] (srcRows refRows : List (Row V))
    (srcCols refCols : List String) : Nat :=
  (srcRows.map (fun s =>
    let ms := refRows.filter (fun r => fkRowMatch srcCols refCols s r)
    if ms.isEmpty then 1
    else (ms.filter (fun r => (r (refCols.headD "")).isNone)).length)).sum

/-! ### Database state operations (SQL DDL/DML issued by `build`) -/

/-- Look up a table by name. -/
def getTable {V : Type} (db : DB V) (t : String) : Option (List (Row V)) :=
  (db.find? (fun p => decide (p.1 = t))).map (·.2)

/-- `DROP TABLE [IF EXISTS] t`. -/
def dropTable {V : Type} (db : DB V) (t : String) : DB V :=
  db.filter (fun p => decide (p.1 ≠ t))

/-- `DROP TABLE IF EXISTS t` followed by `CREATE TABLE t` holding `rows`. -/
def setTable {V : Type} (db : DB V) (t : String) (rows : List (Row V)) : DB V :=
  dropTable db t ++ [(t, rows)]

/-- The table names present in the database (`SHOW TABLES`). -/
def dbKeys {V : Type} (db : DB V) : List String := db.map (·.1)

/-- `prof["tables"][t]` with the `.get("pk", [])` / `.get("fks", [])` defaults.
`build` only looks up names produced by `_toposort_tables`, which are keys of
the profile, so the default is never reached there. -/
def lookupSpec (prof : Profile) (t : String) : TableSpec :=
  ((prof.find? (fun p => decide (p.1 = t))).map (·.2)).getD ⟨[], []⟩

/-! ### Staged Bulk Loader (`build`, cli.py lines 317-391) -/

/-- Modelled from the spec (§4.2 step 4): the embedded engine rejects the copy
when the batch violates the PRIMARY KEY constraint — a NULL in a key column or
two rows with an equal key tuple. -/
def pkViolated {V : Type} [DecidableEq V] (pk : List String) (rows : List (Row V)) :
    Bool :=
  !pk.isEmpty &&
    (rows.any (anyNullKey pk) || !decide ((rows.map (keyTuple pk)).Nodup))

/-- Modelled from the spec (§4.2 step 4): the embedded engine rejects the copy
when some row's foreign-key tuple is fully non-NULL and matches no row of the
referenced table (a row with a NULL key column satisfies the constraint). -/
def fkViolated {V : Type} [DecidableEq V] (db : DB V) (fks : List FKSpec)
    (rows : List (Row V)) : Bool :=
  fks.any (fun fk =>
    rows.any (fun s =>
      fk.cols.all (fun c => !(s c).isNone) &&
      ((getTable db fk.ref_table).getD []).all
        (fun r => !fkRowMatch fk.cols fk.ref_cols s r)))

/-- One iteration of the second `for t in order:` loop of `build`: drop and
recreate the constrained table `t`, then `INSERT INTO t SELECT * FROM stg_t`.
On a constraint violation the INSERT statement fails atomically (no rows kept,
`stg_t` not dropped) and the uncaught engine error is the `none` count.  On
success `stg_t` is dropped and the row count of `t` is reported. -/
def loadStep {V : Type} [DecidableEq V] (prof : Profile) (db : DB V) (t : String) :
    DB V × Option Nat :=
  let staged := (getTable db ("stg_" ++ t)).getD []
  let spec := lookupSpec prof t
  let db1 := setTable db t []
  if pkViolated spec.pk staged || fkViolated db1 spec.fks staged then
    (db1, none)
  else
    (dropTable (setTable db1 t staged) ("stg_" ++ t), some staged.length)

/-- The second loop of `build` over the load plan.  A failing `loadStep` raises
out of the Python function: no later table is processed, the metrics collected
so far are discarded with the exception, and the database file keeps the state
reached at the failure. -/
def runLoads {V : Type} [DecidableEq V] (prof : Profile) (db : DB V) :
    List String → DB V × List (String × Nat) × Option String
  | [] => (db, [], none)
  | t :: rest =>
    let s := loadStep prof db t
    match s.2 with
    | none => (s.1, [], some ("Constraint Error: " ++ t))
    | some k =>
      let r := runLoads prof s.1 rest
      (r.1, (t, k) :: r.2.1, r.2.2)

/-- The first `for t in order:` loop of `build`: each table's CSV is imported
into the untyped staging table `stg_<t>`. -/
def stagingPhase {V : Type} (csv : String → List (Row V)) :
    List String → DB V → DB V
  | [], db => db
  | t :: rest, db => stagingPhase csv rest (setTable db ("stg_" ++ t) (csv t))

/-- The staging row-count metrics recorded by the first loop. -/
def stagingMetrics {V : Type} (csv : String → List (Row V)) (order : List String) :
    List (String × Nat) :=
  order.map (fun t => ("stg_" ++ t, (csv t).length))

/-- `build(folder, db, profile, ...)`: order the tables, delete the database
file (`db.unlink(missing_ok=True)` — the run starts from an empty database
regardless of the prior state `db0`), stage every CSV, then materialize each
constrained table.  Result: final database state, the recorded `(table, rows)`
metrics, and the uncaught engine error if a load failed. -/
def buildRun {V : Type} [DecidableEq V] (prof : Profile) (csv : String → List (Row V))
    (db0 : DB V) : DB V × List (String × Nat) × Option String :=
  let order := toposortTables prof
  let staged := stagingPhase csv order ([] : DB V)
  let r := runLoads prof staged order
  (r.1, stagingMetrics csv order ++ r.2.1, r.2.2)

/-! ### Concrete rows and tables of the spec's examples -/

/-- A row with a single column `id`. -/
def exRowId (v : Option Int) : Row Int := fun c => if c = "id" then v else none

/-- A row with a single column `fk`. -/
def exRowFK (v : Option Int) : Row Int := fun c => if c = "fk" then v else none

/-- A row with two columns `a` and `b`. -/
def exRowAB (a b : Option Int) : Row Int :=
  fun c => if c = "a" then a else if c = "b" then b else none

/-- The spec's primary-key example table: rows `[{id:1},{id:1},{id:null}]`. -/
def exPkRows : List (Row Int) := [exRowId (some 1), exRowId (some 1), exRowId none]

/-- The spec's foreign-key example source rows `[{fk:1},{fk:2},{fk:null}]`. -/
def exSrcRows : List (Row Int) := [exRowFK (some 1), exRowFK (some 2), exRowFK none]

/-- The spec's foreign-key example referenced table: ids exactly `{1}`. -/
def exRefRows : List (Row Int) := [exRowId (some 1)]

/-- The profile of the duplicate-id example: table `a` with primary key
`["id"]` and an unconstrained table `b`. -/
def exProf7 : Profile := [("a", ⟨["id"], []⟩), ("b", ⟨[], []⟩)]

/-- Source CSVs for `exProf7`: `a.csv` contains a duplicate `id` value. -/
def exCsv7 : String → List (Row Int) := fun t =>
  if t = "a" then [exRowId (some 1), exRowId (some 1)]
  else if t = "b" then [exRowId (some 7)]
  else []

/-- The database state after the staging phase of `build` on `exProf7`. -/
def exDb7 : DB Int := stagingPhase exCsv7 (toposortTables exProf7) []

/-- A pre-existing database with a table absent from every profile. -/
def exOldDb : DB Int := [("legacy", exPkRows)]

/-! ### List helper lemmas -/

theorem insertSorted_perm (x : String) (l : List String) :
    List.Perm (insertSorted x l) (x :: l) := by
  induction l with
  | nil => simp [insertSorted]
  | cons y ys ih =>
    simp only [insertSorted]
    split
    · exact List.Perm.refl _
    · exact List.Perm.trans (List.Perm.cons y ih) (List.Perm.swap x y ys)

theorem sortS_perm (l : List String) : List.Perm (sortS l) l := by
  induction l with
  | nil => exact List.Perm.refl _
  | cons x xs ih =>
    exact List.Perm.trans (insertSorted_perm x (sortS xs)) (List.Perm.cons x ih)

theorem mem_sortS {x : String} {l : List String} : x ∈ sortS l ↔ x ∈ l :=
  (sortS_perm l).mem_iff

theorem filter_length_lt_of_mem_not {p : String → Bool} {l : List String} {x : String}
    (hx : x ∈ l) (hp : p x = false) : (l.filter p).length < l.length := by
  induction l with
  | nil => cases hx
  | cons y ys ih =>
    rcases List.mem_cons.mp hx with rfl | hx2
    · simp only [List.filter_cons, hp, Bool.false_eq_true, if_false, List.length_cons]
      have := List.length_filter_le p ys
      omega
    · by_cases hy : p y
      · simpa [List.filter_cons, hy] using ih hx2
      · simp only [Bool.not_eq_true] at hy
        simp only [List.filter_cons, hy, Bool.false_eq_true, if_false, List.length_cons]
        have := List.length_filter_le p ys
        omega

theorem posIn_lt_length {l : List String} {x : String} (hx : x ∈ l) :
    posIn l x < l.length := by
  induction l with
  | nil => cases hx
  | cons a l ih =>
    by_cases h : a = x
    · simp [posIn, h]
    · rcases List.mem_cons.mp hx with rfl | hx2
      · exact absurd rfl h
      · simp only [posIn, h, if_false, List.length_cons]
        exact Nat.succ_lt_succ (ih hx2)

theorem posIn_append_left {l₁ : List String} (l₂ : List String) {x : String}
    (hx : x ∈ l₁) : posIn (l₁ ++ l₂) x = posIn l₁ x := by
  induction l₁ with
  | nil => cases hx
  | cons a l ih =>
    by_cases h : a = x
    · simp [posIn, h]
    · rcases List.mem_cons.mp hx with rfl | hx2
      · exact absurd rfl h
      · simp [posIn, h, ih hx2]

theorem posIn_append_right {l₁ : List String} (l₂ : List String) {x : String}
    (hx : x ∉ l₁) : posIn (l₁ ++ l₂) x = l₁.length + posIn l₂ x := by
  induction l₁ with
  | nil => simp [posIn]
  | cons a l ih =>
    have ha : a ≠ x := fun h => hx (h ▸ List.mem_cons_self a l)
    have hx2 : x ∉ l := fun h => hx (List.mem_cons_of_mem a h)
    rw [List.cons_append]
    simp only [posIn, ha, if_false, List.length_cons]
    rw [ih hx2]
    omega

/-! ### Facts about the Dependency Orderer -/

theorem dropReady_length_lt {deps : String → List String} {ordered remaining : List String}
    (h : (readyOf deps ordered remaining).isEmpty = false) :
    (dropReady deps ordered remaining).length < remaining.length := by
  rcases hne : readyOf deps ordered remaining with _ | ⟨a, l⟩
  · rw [hne] at h; simp at h
  · have ha : a ∈ readyOf deps ordered remaining := by
      rw [hne]; exact List.mem_cons_self a l
    have ha2 : a ∈ remaining := (List.mem_filter.mp (mem_sortS.mp ha)).1
    exact filter_length_lt_of_mem_not ha2 (by simp [ha])

theorem toposortGo_fuel_irrel (deps : String → List String) :
    ∀ n m ordered remaining, remaining.length < n → remaining.length < m →
      toposortGo deps n ordered remaining = toposortGo deps m ordered remaining := by
  intro n
  induction n with
  | zero => intro m ordered remaining hn; omega
  | succ n ih =>
    intro m ordered remaining hn hm
    match m with
    | 0 => omega
    | m + 1 =>
      simp only [toposortGo]
      by_cases he : remaining.isEmpty
      · simp [he]
      · simp only [he, Bool.false_eq_true, if_false]
        by_cases hr : (readyOf deps ordered remaining).isEmpty
        · simp [hr]
        · simp only [hr, Bool.false_eq_true, if_false]
          have hlt := dropReady_length_lt (Bool.eq_false_iff.mpr hr)
          exact ih m (ordered ++ readyOf deps ordered remaining)
            (dropReady deps ordered remaining) (by omega) (by omega)

theorem ready_append_dropReady_perm (deps : String → List String)
    (ordered remaining : List String) :
    List.Perm (readyOf deps ordered remaining ++ dropReady deps ordered remaining)
      remaining := by
  have h1 : dropReady deps ordered remaining =
      remaining.filter (fun t => !(readyPred deps ordered t)) := by
    apply List.filter_congr
    intro t ht
    by_cases hp : readyPred deps ordered t
    · have : t ∈ readyOf deps ordered remaining :=
        mem_sortS.mpr (List.mem_filter.mpr ⟨ht, hp⟩)
      simp [this, hp]
    · have : t ∉ readyOf deps ordered remaining := by
        intro hmem
        exact hp (List.mem_filter.mp (mem_sortS.mp hmem)).2
      simp [this, hp]
  rw [h1]
  exact List.Perm.trans
    (List.Perm.append (sortS_perm _) (List.Perm.refl _))
    (List.filter_append_perm _ remaining)

theorem toposortGo_perm (deps : String → List String) :
    ∀ fuel ordered remaining, remaining.length < fuel →
      List.Perm (toposortGo deps fuel ordered remaining) (ordered ++ remaining) := by
  intro fuel
  induction fuel with
  | zero => intro ordered remaining h; omega
  | succ fuel ih =>
    intro ordered remaining h
    simp only [toposortGo]
    by_cases he : remaining.isEmpty
    · rw [List.isEmpty_iff] at he
      simp [he]
    · simp only [he, Bool.false_eq_true, if_false]
      by_cases hr : (readyOf deps ordered remaining).isEmpty
      · simp only [hr, if_true]
        exact List.Perm.append_left ordered (sortS_perm remaining)
      · simp only [hr, Bool.false_eq_true, if_false]
        have hlt := dropReady_length_lt (Bool.eq_false_iff.mpr hr)
        have h2 := ih (ordered ++ readyOf deps ordered remaining)
          (dropReady deps ordered remaining) (by omega)
        refine List.Perm.trans h2 ?_
        rw [List.append_assoc]
        exact List.Perm.append_left ordered (ready_append_dropReady_perm deps ordered remaining)

theorem toposortTables_perm (prof : Profile) :
    List.Perm (toposortTables prof) (tableNames prof) := by
  have h := toposortGo_perm (depsOf prof) ((tableNames prof).length + 1)
    [] (tableNames prof) (by omega)
  simpa using h

/-- A nonempty list has an element of minimal `f`-value. -/
theorem exists_min_val {l : List String} (f : String → Nat) (h : l ≠ []) :
    ∃ t ∈ l, ∀ u ∈ l, f t ≤ f u := by
  induction l with
  | nil => exact absurd rfl h
  | cons a l ih =>
    rcases l with _ | ⟨b, l2⟩
    · exact ⟨a, List.mem_cons_self a [], by
        intro u hu
        rcases List.mem_cons.mp hu with rfl | hu2
        · exact Nat.le_refl _
        · cases hu2⟩
    · obtain ⟨t, ht, hmin⟩ := ih (by simp)
      by_cases hle : f a ≤ f t
      · refine ⟨a, List.mem_cons_self a _, ?_⟩
        intro u hu
        rcases List.mem_cons.mp hu with rfl | hu2
        · exact Nat.le_refl _
        · exact Nat.le_trans hle (hmin u hu2)
      · refine ⟨t, List.mem_cons_of_mem a ht, ?_⟩
        intro u hu
        rcases List.mem_cons.mp hu with rfl | hu2
        · omega
        · exact hmin u hu2

/-- Progress: when every dependency of every remaining table is accounted for
and dependencies strictly decrease a rank (no cycles), some table is ready. -/
theorem readyOf_ne_empty {deps : String → List String} {rank : String → Nat}
    (hrank : ∀ t d, d ∈ deps t → rank d < rank t)
    {ordered remaining : List String} (hne : remaining ≠ [])
    (hsub : ∀ t ∈ remaining, ∀ d ∈ deps t, d ∈ ordered ∨ d ∈ remaining) :
    (readyOf deps ordered remaining).isEmpty = false := by
  obtain ⟨t, ht, hmin⟩ := exists_min_val rank hne
  have hp : readyPred deps ordered t = true := by
    rw [readyPred, List.all_eq_true]
    intro d hd
    have h1 := hrank t d hd
    rcases hsub t ht d hd with h2 | h2
    · exact decide_eq_true h2
    · exact absurd (hmin d h2) (by omega)
  have hmem : t ∈ readyOf deps ordered remaining :=
    mem_sortS.mpr (List.mem_filter.mpr ⟨ht, hp⟩)
  rcases hre : readyOf deps ordered remaining with _ | ⟨a, l⟩
  · rw [hre] at hmem; cases hmem
  · rfl

/-- Main invariant argument: with acyclic, profile-closed dependencies the loop
keeps every table after all its dependencies. -/
theorem toposortGo_ordering {deps : String → List String} {rank : String → Nat}
    (hrank : ∀ t d, d ∈ deps t → rank d < rank t) :
    ∀ fuel ordered remaining, remaining.length < fuel →
    (ordered ++ remaining).Nodup →
    (∀ t ∈ remaining, ∀ d ∈ deps t, d ∈ ordered ∨ d ∈ remaining) →
    (∀ t ∈ ordered, ∀ d ∈ deps t, d ∈ ordered ∧ posIn ordered d < posIn ordered t) →
    ∀ t, t ∈ ordered ++ remaining → ∀ d, d ∈ deps t →
      d ∈ toposortGo deps fuel ordered remaining ∧
      t ∈ toposortGo deps fuel ordered remaining ∧
      posIn (toposortGo deps fuel ordered remaining) d <
        posIn (toposortGo deps fuel ordered remaining) t := by
  intro fuel
  induction fuel with
  | zero => intro ordered remaining h; omega
  | succ fuel ih =>
    intro ordered remaining hlen hnodup hsub hord t htmem d hdmem
    by_cases he : remaining.isEmpty
    · rw [List.isEmpty_iff] at he
      subst he
      simp only [List.append_nil] at htmem
      obtain ⟨hdo, hpos⟩ := hord t htmem d hdmem
      simp only [toposortGo, List.isEmpty_nil, if_true]
      exact ⟨hdo, htmem, hpos⟩
    · have hne : remaining ≠ [] := by
        intro hcon; rw [hcon] at he; exact he rfl
      have hr := readyOf_ne_empty hrank hne hsub
      simp only [toposortGo, he, Bool.false_eq_true, if_false, hr]
      -- invariants for the next iteration
      set R := readyOf deps ordered remaining with hR
      set D := dropReady deps ordered remaining with hD
      have hpm : List.Perm (R ++ D) remaining := ready_append_dropReady_perm deps ordered remaining
      have hdisj : List.Disjoint ordered remaining := (List.nodup_append.mp hnodup).2.2
      have hRsub : ∀ x, x ∈ R → x ∈ remaining := fun x hx =>
        (List.mem_filter.mp (mem_sortS.mp hx)).1
      have hRready : ∀ x ∈ R, ∀ d2 ∈ deps x, d2 ∈ ordered := by
        intro x hx d2 hd2
        have := (List.mem_filter.mp (mem_sortS.mp hx)).2
        rw [readyPred, List.all_eq_true] at this
        exact of_decide_eq_true (this d2 hd2)
      have hnodup2 : ((ordered ++ R) ++ D).Nodup := by
        rw [List.append_assoc]
        exact ((List.Perm.append_left ordered hpm).nodup_iff).mpr hnodup
      have hsub2 : ∀ x ∈ D, ∀ d2 ∈ deps x, d2 ∈ ordered ++ R ∨ d2 ∈ D := by
        intro x hx d2 hd2
        have hxrem : x ∈ remaining := (List.mem_filter.mp hx).1
        rcases hsub x hxrem d2 hd2 with h2 | h2
        · exact Or.inl (List.mem_append_left R h2)
        · rcases List.mem_append.mp (hpm.mem_iff.mpr h2) with h3 | h3
          · exact Or.inl (List.mem_append_right ordered h3)
          · exact Or.inr h3
      have hord2 : ∀ x ∈ ordered ++ R, ∀ d2 ∈ deps x,
          d2 ∈ ordered ++ R ∧ posIn (ordered ++ R) d2 < posIn (ordered ++ R) x := by
        intro x hx d2 hd2
        rcases List.mem_append.mp hx with hxo | hxR
        · obtain ⟨hdo, hpos⟩ := hord x hxo d2 hd2
          refine ⟨List.mem_append_left R hdo, ?_⟩
          rw [posIn_append_left R hdo, posIn_append_left R hxo]
          exact hpos
        · have hdo := hRready x hxR d2 hd2
          refine ⟨List.mem_append_left R hdo, ?_⟩
          have hxnotord : x ∉ ordered := fun hcon => hdisj hcon (hRsub x hxR)
          rw [posIn_append_left R hdo, posIn_append_right R hxnotord]
          have := posIn_lt_length hdo
          omega
      have hlen2 : D.length < fuel := by
        have := dropReady_length_lt hr
        rw [← hD] at this
        omega
      have htmem2 : t ∈ (ordered ++ R) ++ D := by
        rcases List.mem_append.mp htmem with h2 | h2
        · exact List.mem_append_left D (List.mem_append_left R h2)
        · rcases List.mem_append.mp (hpm.mem_iff.mpr h2) with h3 | h3
          · exact List.mem_append_left D (List.mem_append_right ordered h3)
          · exact List.mem_append_right _ h3
      exact ih (ordered ++ R) D hlen2 hnodup2 hsub2 hord2 t htmem2 d hdmem

/-- Translate the per-profile rank hypothesis to the `depsOf` function. -/
theorem depsOf_rank {prof : Profile} {rank : String → Nat}
    (hrank : ∀ p ∈ prof, ∀ fk ∈ p.2.fks, rank fk.ref_table < rank p.1) :
    ∀ t d, d ∈ depsOf prof t → rank d < rank t := by
  intro t d hd
  rw [depsOf] at hd
  obtain ⟨q, hq, hdq⟩ := List.mem_flatMap.mp hd
  have hq2 := List.mem_filter.mp hq
  have hqt : q.1 = t := of_decide_eq_true hq2.2
  obtain ⟨fk, hfk, hfkd⟩ := List.mem_map.mp hdq
  have := hrank q hq2.1 fk hfk
  rw [hfkd, hqt] at this
  exact this

/-- Translate the closedness hypothesis to the `depsOf` function. -/
theorem depsOf_closed {prof : Profile}
    (hclosed : ∀ p ∈ prof, ∀ fk ∈ p.2.fks, fk.ref_table ∈ tableNames prof) :
    ∀ t d, d ∈ depsOf prof t → d ∈ tableNames prof := by
  intro t d hd
  rw [depsOf] at hd
  obtain ⟨q, hq, hdq⟩ := List.mem_flatMap.mp hd
  have hq2 := List.mem_filter.mp hq
  obtain ⟨fk, hfk, hfkd⟩ := List.mem_map.mp hdq
  have := hclosed q hq2.1 fk hfk
  rw [hfkd] at this
  exact this

/-- A declared foreign key contributes its referenced table to `depsOf`. -/
theorem mem_depsOf_of_fk {prof : Profile} {p : String × TableSpec} {fk : FKSpec}
    (hp : p ∈ prof) (hfk : fk ∈ p.2.fks) : fk.ref_table ∈ depsOf prof p.1 := by
  rw [depsOf]
  apply List.mem_flatMap.mpr
  refine ⟨p, List.mem_filter.mpr ⟨hp, decide_eq_true rfl⟩, ?_⟩
  exact List.mem_map_of_mem (·.ref_table) hfk

/-! ### Claim theorems: Dependency Orderer -/

/-- C2.  For every schema profile (cycles and dangling references included) the
Dependency Orderer terminates — `toposortGo` is total, and its fuel bound covers
every iteration of the Python loop — and its output is a permutation of exactly
the profile's table names: every table appears, and (the profile's table names
being pairwise distinct) each appears exactly once. -/
theorem toposort_perm_of_tables (prof : Profile)
    (hnodup : (tableNames prof).Nodup) :
    List.Perm (toposortTables prof) (tableNames prof) ∧
    (toposortTables prof).Nodup := by
  have hp := toposortTables_perm prof
  exact ⟨hp, (hp.nodup_iff).mpr hnodup⟩

/-- Witness for `toposort_perm_of_tables`: the cyclic three-table profile. -/
theorem toposort_perm_of_tables_witness :
    List.Perm (toposortTables exProfCycle3) (tableNames exProfCycle3) ∧
    (toposortTables exProfCycle3).Nodup :=
  toposort_perm_of_tables exProfCycle3 (by decide)

/-- C3, counterexample.  `exProfDangling` has no foreign-key cycle (a strictly
decreasing rank exists along every reference), yet the output `["a", "b"]`
places the referenced table `b` after its referencer `a`: the dangling
reference `b → z` stalls the loop and the lexicographic fallback ignores the
dependency of `a` on `b`. -/
theorem toposort_acyclic_order_counterexample :
    (∃ rank : String → Nat,
      ∀ p ∈ exProfDangling, ∀ fk ∈ p.2.fks, rank fk.ref_table < rank p.1) ∧
    toposortTables exProfDangling = ["a", "b"] ∧
    ¬ (posIn (toposortTables exProfDangling) "b" <
        posIn (toposortTables exProfDangling) "a") := by
  refine ⟨⟨fun t => if t = "a" then 2 else if t = "b" then 1 else 0, by decide⟩,
    by decide, by decide⟩

/-- C3, amended.  For every profile whose reference graph is acyclic (witnessed
by a rank strictly decreasing along references) *and* whose referenced tables
are all declared in the profile, the orderer places every referenced table
strictly before each table referencing it; and on the spec's two-table example
the LoadPlan is `["a", "b"]`. -/
theorem toposort_acyclic_closed_order (prof : Profile) (rank : String → Nat)
    (hnodup : (tableNames prof).Nodup)
    (hclosed : ∀ p ∈ prof, ∀ fk ∈ p.2.fks, fk.ref_table ∈ tableNames prof)
    (hrank : ∀ p ∈ prof, ∀ fk ∈ p.2.fks, rank fk.ref_table < rank p.1) :
    (∀ p ∈ prof, ∀ fk ∈ p.2.fks,
      fk.ref_table ∈ toposortTables prof ∧ p.1 ∈ toposortTables prof ∧
      posIn (toposortTables prof) fk.ref_table < posIn (toposortTables prof) p.1) ∧
    toposortTables exProfAB = ["a", "b"] := by
  constructor
  · intro p hp fk hfk
    have h := toposortGo_ordering (depsOf_rank hrank) ((tableNames prof).length + 1)
      [] (tableNames prof) (by omega) (by simpa using hnodup)
      (fun t ht d hd => Or.inr (depsOf_closed hclosed t d hd))
      (fun t ht => absurd ht (List.not_mem_nil t))
      p.1 (by rw [List.nil_append]; exact List.mem_map_of_mem (·.1) hp)
      fk.ref_table (mem_depsOf_of_fk hp hfk)
    exact h
  · decide

/-- Witness for `toposort_acyclic_closed_order`: the spec's `a`/`b` profile
with the rank `a ↦ 0`, `b ↦ 1`. -/
theorem toposort_acyclic_closed_order_witness :
    toposortTables exProfAB = ["a", "b"] ∧
    posIn (toposortTables exProfAB) "a" < posIn (toposortTables exProfAB) "b" := by
  have h := toposort_acyclic_closed_order exProfAB
    (fun t => if t = "b" then 1 else 0) (by decide) (by decide) (by decide)
  refine ⟨h.2, ?_⟩
  have h2 := h.1 ("b", ⟨[], [⟨["a_id"], "a", ["id"]⟩]⟩) (by decide)
    ⟨["a_id"], "a", ["id"]⟩ (by decide)
  exact h2.2.2

/-- C4.  Whenever an iteration of the orderer's loop finds no ready table (a
cycle or a reference to an absent table), the loop appends *all* remaining
tables in lexicographic order and stops — no error is raised; and on the
mutual-cycle example the output is `["x", "y"]`. -/
theorem toposort_stall_fallback (deps : String → List String) (fuel : Nat)
    (ordered remaining : List String)
    (hne : remaining.isEmpty = false)
    (hstall : (readyOf deps ordered remaining).isEmpty = true) :
    toposortGo deps (fuel + 1) ordered remaining = ordered ++ sortS remaining ∧
    toposortTables exProfXY = ["x", "y"] := by
  constructor
  · simp [toposortGo, hne, hstall]
  · decide

/-- Witness for `toposort_stall_fallback`: the first (stalled) iteration of the
mutual-cycle example. -/
theorem toposort_stall_fallback_witness :
    toposortGo (depsOf exProfXY) 2 [] ["x", "y"] = [] ++ sortS ["x", "y"] ∧
    toposortTables exProfXY = ["x", "y"] :=
  toposort_stall_fallback (depsOf exProfXY) 1 [] ["x", "y"] (by decide) (by decide)

/-! ### Claim theorems: Integrity Validator, primary keys -/

theorem count_true_map {α : Type} (f : α → Bool) (l : List α) :
    (l.map f).count true = (l.filter f).length := by
  induction l with
  | nil => rfl
  | cons a l ih =>
    rw [List.map_cons, List.count_cons, List.filter_cons, ih]
    by_cases h : f a <;> simp [h]

theorem map_eq_map_iff_forall {α β : Type} (f g : α → β) (l : List α) :
    l.map f = l.map g ↔ ∀ a ∈ l, f a = g a := by
  induction l with
  | nil => simp
  | cons a l ih => simp [ih]

/-- C5, counterexample.  On a table that exists with zero rows and a declared
primary key, `_pk_metrics` does not report `{totalRows:0, distinctRows:0,
nullRows:0, duplicateRows:0}`: the `SUM` aggregate is SQL NULL and `int(None)`
raises, so no report is produced at all. -/
theorem pk_metrics_empty_table_counterexample :
    pkMetrics ([] : List (Row Int)) ["id"] = none ∧
    pkMetrics ([] : List (Row Int)) ["id"] ≠ some ⟨0, 0, 0, 0⟩ := by
  exact ⟨rfl, by decide⟩

/-- C5, amended.  For every table with at least one row and a declared primary
key, `_pk_metrics` reports the total row count, the distinct key count, the
count of rows with any NULL key column, and `totalRows - distinctRows` as the
duplicate count; on the spec's example `[{id:1},{id:1},{id:null}]` with key
`["id"]` the report is `{n:3, distinct:1, null:1, dup:2}`. -/
theorem pk_metrics_nonempty_report {V : Type} [DecidableEq V] (rows : List (Row V))
    (cols : List String) (hrows : rows ≠ []) (hcols : cols ≠ []) :
    pkMetrics rows cols =
      some ⟨(rows.length : Int), (distinctCount rows cols : Int),
            ((rows.filter (anyNullKey cols)).length : Int),
            (rows.length : Int) - (distinctCount rows cols : Int)⟩ ∧
    pkMetrics exPkRows ["id"] = some ⟨3, 1, 1, 2⟩ := by
  refine ⟨?_, by decide⟩
  rw [pkMetrics, sqlSumBool]
  have hne : (rows.map (anyNullKey cols)).isEmpty = false := by
    rcases rows with _ | ⟨r, rest⟩
    · exact absurd rfl hrows
    · rfl
  rw [hne]
  simp only [Bool.false_eq_true, if_false, count_true_map]

/-- Witness for `pk_metrics_nonempty_report`: the spec's example table. -/
theorem pk_metrics_nonempty_report_witness :
    pkMetrics exPkRows ["id"] = some ⟨3, 1, 1, 2⟩ :=
  (pk_metrics_nonempty_report exPkRows ["id"]
    (by simp [exPkRows]) (by decide)).2

/-- C6.  For a composite primary key (two or more columns) the distinct count
of `_pk_metrics` compares whole key tuples: two rows produce the same key
tuple exactly when they agree on every key column simultaneously; and on the
table `[(a:1,b:2), (a:2,b:1)]` — whose columns coincide as sets but whose
tuples differ — both rows count as distinct, `{n:2, distinct:2, null:0,
dup:0}`. -/
theorem pk_metrics_composite_tuple {V : Type} [DecidableEq V] (cols : List String)
    (h2 : 2 ≤ cols.length) (rows : List (Row V)) (r1 r2 : Row V) :
    (keyTuple cols r1 = keyTuple cols r2 ↔ ∀ c ∈ cols, r1 c = r2 c) ∧
    distinctCount rows cols = ((rows.map (keyTuple cols)).dedup).length ∧
    pkMetrics [exRowAB (some 1) (some 2), exRowAB (some 2) (some 1)] ["a", "b"] =
      some ⟨2, 2, 0, 0⟩ := by
  refine ⟨map_eq_map_iff_forall r1 r2 cols, ?_, by decide⟩
  rcases cols with _ | ⟨c1, _ | ⟨c2, rest⟩⟩
  · simp at h2
  · simp at h2
  · rfl

/-- Witness for `pk_metrics_composite_tuple`: the two-column example. -/
theorem pk_metrics_composite_tuple_witness :
    distinctCount [exRowAB (some 1) (some 2), exRowAB (some 2) (some 1)] ["a", "b"] = 2 ∧
    pkMetrics [exRowAB (some 1) (some 2), exRowAB (some 2) (some 1)] ["a", "b"] =
      some ⟨2, 2, 0, 0⟩ := by
  have h := pk_metrics_composite_tuple ["a", "b"] (by decide)
    [exRowAB (some 1) (some 2), exRowAB (some 2) (some 1)]
    (exRowAB (some 1) (some 2)) (exRowAB (some 2) (some 1))
  exact ⟨h.2.1.trans (by decide), h.2.2⟩

/-- C9.  For a table that exists with zero rows and a declared primary key,
`_pk_metrics` fails with an error instead of reporting all-zero counts: the
`SUM(... IS NULL ...)` aggregate over the empty table is SQL NULL, fetched as
Python `None`, and the unconditional `int(null_n)` conversion raises. -/
theorem pk_metrics_empty_table_errors {V : Type} [DecidableEq V]
    (cols : List String) (hcols : cols ≠ []) :
    pkMetrics ([] : List (Row V)) cols = none ∧
    sqlSumBool (List.map (anyNullKey cols) ([] : List (Row V))) = none :=
  ⟨rfl, rfl⟩

/-- Witness for `pk_metrics_empty_table_errors`: key `["id"]`. -/
theorem pk_metrics_empty_table_errors_witness :
    pkMetrics ([] : List (Row Int)) ["id"] = none :=
  (pk_metrics_empty_table_errors ["id"] (by decide)).1

/-! ### Claim theorems: Integrity Validator, foreign keys -/

theorem sum_map_ite_length {α : Type} (p : α → Bool) (l : List α) :
    (l.map (fun a => if p a then 1 else 0)).sum = (l.filter p).length := by
  induction l with
  | nil => rfl
  | cons a l ih =>
    rw [List.map_cons, List.sum_cons, List.filter_cons, ih]
    by_cases h : p a
    · simp only [h, if_true, List.length_cons]
      omega
    · simp [h]

/-- A joined row that satisfies the join condition has a non-NULL first
referenced key column. -/
theorem fkRowMatch_head_isSome {V : Type} [DecidableEq V] {sc0 rc0 : String}
    {scs rcs : List String} {s r : Row V}
    (h : fkRowMatch (sc0 :: scs) (rc0 :: rcs) s r = true) :
    (r rc0).isNone = false := by
  rw [fkRowMatch] at h
  simp only [List.zip_cons_cons, List.all_cons, Bool.and_eq_true] at h
  have h1 := h.1
  cases hr : r rc0 with
  | none =>
    have hfalse : sqlEqOpt (none : Option V) (s sc0) = false := by cases s sc0 <;> rfl
    rw [hr, hfalse] at h1
    cases h1
  | some v => simp [hr]

/-- A source row with a NULL value in any source key column satisfies the join
condition against no referenced row. -/
theorem fkRowMatch_null_src {V : Type} [DecidableEq V] {srcCols refCols : List String}
    (hlen : srcCols.length = refCols.length) {s : Row V} {c : String}
    (hc : c ∈ srcCols) (hnull : s c = none) (r : Row V) :
    fkRowMatch srcCols refCols s r = false := by
  induction srcCols generalizing refCols with
  | nil => cases hc
  | cons a as ih =>
    rcases refCols with _ | ⟨b, bs⟩
    · simp at hlen
    · rw [fkRowMatch]
      simp only [List.zip_cons_cons, List.all_cons, Bool.and_eq_false_iff]
      rcases List.mem_cons.mp hc with rfl | hc2
      · refine Or.inl ?_
        rw [hnull]
        cases r b <;> rfl
      · refine Or.inr ?_
        have hlen2 : as.length = bs.length := by simpa using hlen
        have h2 := ih hlen2 hc2
        rw [fkRowMatch] at h2
        exact h2

/-- The per-source-row contribution of the LEFT JOIN count: 1 when the row
matches no referenced row, 0 otherwise. -/
theorem fkOrphans_row_contrib {V : Type} [DecidableEq V] (refRows : List (Row V))
    (sc0 rc0 : String) (scs rcs : List String) (s : Row V) :
    (if (refRows.filter (fun r => fkRowMatch (sc0 :: scs) (rc0 :: rcs) s r)).isEmpty
       then 1
       else ((refRows.filter (fun r => fkRowMatch (sc0 :: scs) (rc0 :: rcs) s r)).filter
               (fun r => (r ((rc0 :: rcs).headD "")).isNone)).length) =
    if refRows.all (fun r => !fkRowMatch (sc0 :: scs) (rc0 :: rcs) s r) then 1 else 0 := by
  by_cases hm : (refRows.filter (fun r => fkRowMatch (sc0 :: scs) (rc0 :: rcs) s r)).isEmpty
  · rw [List.isEmpty_iff] at hm
    have hall : refRows.all (fun r => !fkRowMatch (sc0 :: scs) (rc0 :: rcs) s r) = true := by
      rw [List.all_eq_true]
      intro r hr
      by_cases hmr : fkRowMatch (sc0 :: scs) (rc0 :: rcs) s r
      · have : r ∈ refRows.filter (fun r => fkRowMatch (sc0 :: scs) (rc0 :: rcs) s r) :=
          List.mem_filter.mpr ⟨hr, hmr⟩
        rw [hm] at this
        cases this
      · simp [hmr]
    simp [hm, hall]
  · have hex : ∃ r0, r0 ∈ refRows ∧ fkRowMatch (sc0 :: scs) (rc0 :: rcs) s r0 = true := by
      rcases hfe : refRows.filter (fun r => fkRowMatch (sc0 :: scs) (rc0 :: rcs) s r) with
        _ | ⟨r0, rs⟩
      · rw [hfe] at hm; exact absurd rfl hm
      · have hr0 : r0 ∈ refRows.filter (fun r => fkRowMatch (sc0 :: scs) (rc0 :: rcs) s r) := by
          rw [hfe]; exact List.mem_cons_self r0 rs
        have := List.mem_filter.mp hr0
        exact ⟨r0, this.1, this.2⟩
    have hallf : refRows.all (fun r => !fkRowMatch (sc0 :: scs) (rc0 :: rcs) s r) = false := by
      obtain ⟨r0, hr0, hm0⟩ := hex
      by_contra hcon
      rw [Bool.not_eq_false, List.all_eq_true] at hcon
      have := hcon r0 hr0
      rw [hm0] at this
      cases this
    have hzero : ((refRows.filter (fun r => fkRowMatch (sc0 :: scs) (rc0 :: rcs) s r)).filter
        (fun r => (r ((rc0 :: rcs).headD "")).isNone)).length = 0 := by
      rw [List.length_eq_zero, List.filter_eq_nil_iff]
      intro r hr
      have hmr := (List.mem_filter.mp hr).2
      have := fkRowMatch_head_isSome hmr
      simp only [List.headD_cons]
      rw [this]
      exact Bool.false_ne_true
    simp only [hm, Bool.false_eq_true, if_false, hallf, hzero]

/-- C1, amended.  The LEFT JOIN orphan count of `_fk_orphans` equals the number
of source rows whose key tuple matches no referenced row under SQL equality; a
source row with a NULL key column matches nothing, so it *is counted* as an
orphan; on the spec's example (`[{fk:1},{fk:2},{fk:null}]` against ids `{1}`)
the orphan count is therefore 2 — the `fk:2` row and the `fk:null` row. -/
theorem fk_orphans_counts_null_rows {V : Type} [DecidableEq V]
    (srcRows refRows : List (Row V)) (srcCols refCols : List String)
    (hlen : srcCols.length = refCols.length) (hne : refCols ≠ []) :
    fkOrphans srcRows refRows srcCols refCols =
      (srcRows.filter
        (fun s => refRows.all (fun r => !fkRowMatch srcCols refCols s r))).length ∧
    (∀ s ∈ srcRows, ∀ c ∈ srcCols, s c = none →
      ∀ r ∈ refRows, fkRowMatch srcCols refCols s r = false) ∧
    fkOrphans exSrcRows exRefRows ["fk"] ["id"] = 2 := by
  refine ⟨?_, ?_, by decide⟩
  · rcases refCols with _ | ⟨rc0, rcs⟩
    · exact absurd rfl hne
    · rcases srcCols with _ | ⟨sc0, scs⟩
      · simp at hlen
      · rw [fkOrphans]
        have hmap :
            srcRows.map (fun s =>
              if (refRows.filter (fun r => fkRowMatch (sc0 :: scs) (rc0 :: rcs) s r)).isEmpty
              then 1
              else ((refRows.filter (fun r => fkRowMatch (sc0 :: scs) (rc0 :: rcs) s r)).filter
                      (fun r => (r ((rc0 :: rcs).headD "")).isNone)).length) =
            srcRows.map (fun s =>
              if refRows.all (fun r => !fkRowMatch (sc0 :: scs) (rc0 :: rcs) s r)
              then 1 else 0) :=
          (map_eq_map_iff_forall _ _ srcRows).mpr
            (fun s _ => fkOrphans_row_contrib refRows sc0 rc0 scs rcs s)
        rw [hmap, sum_map_ite_length]
  · intro s hs c hc hnull r hr
    exact fkRowMatch_null_src hlen hc hnull r

/-- Witness for `fk_orphans_counts_null_rows`: the spec's example tables. -/
theorem fk_orphans_counts_null_rows_witness :
    fkOrphans exSrcRows exRefRows ["fk"] ["id"] = 2 :=
  (fk_orphans_counts_null_rows exSrcRows exRefRows ["fk"] ["id"] rfl (by decide)).2.2

/-- C1, counterexample.  On the spec's own example — source rows
`[{fk:1},{fk:2},{fk:null}]` checked against referenced ids `{1}` — the code
reports 2 orphans, not 1: the NULL row never satisfies the join condition, is
padded with NULLs by the LEFT JOIN, and so passes the `r.id IS NULL` filter. -/
theorem fk_orphans_null_excluded_counterexample :
    fkOrphans exSrcRows exRefRows ["fk"] ["id"] = 2 ∧
    fkOrphans exSrcRows exRefRows ["fk"] ["id"] ≠ 1 := by decide

/-! ### State lemmas for the Staged Bulk Loader -/

theorem getTable_cons {V : Type} (p : String × List (Row V)) (db : DB V) (u : String) :
    getTable (p :: db) u = if p.1 = u then some p.2 else getTable db u := by
  by_cases h : p.1 = u
  · rw [getTable, List.find?_cons_of_pos _ (by simpa using h), if_pos h]
    rfl
  · rw [getTable, List.find?_cons_of_neg _ (by simpa using h), if_neg h]
    rfl

theorem getTable_dropTable_ne {V : Type} (db : DB V) {t u : String} (h : u ≠ t) :
    getTable (dropTable db t) u = getTable db u := by
  induction db with
  | nil => rfl
  | cons p db ih =>
    rw [dropTable, List.filter_cons]
    by_cases hp : p.1 = t
    · have hd : decide (p.1 ≠ t) = false := by simp [hp]
      rw [hd]
      simp only [Bool.false_eq_true, if_false]
      have hpu : ¬ p.1 = u := fun he => h (by rw [← he, hp])
      rw [getTable_cons, if_neg hpu]
      exact ih
    · have hd : decide (p.1 ≠ t) = true := by simp [hp]
      rw [hd]
      simp only [if_true]
      rw [getTable_cons, getTable_cons]
      by_cases hpu : p.1 = u
      · simp [hpu]
      · rw [if_neg hpu, if_neg hpu]
        exact ih

theorem getTable_dropTable_self {V : Type} (db : DB V) (t : String) :
    getTable (dropTable db t) t = none := by
  induction db with
  | nil => rfl
  | cons p db ih =>
    rw [dropTable, List.filter_cons]
    by_cases hp : p.1 = t
    · have hd : decide (p.1 ≠ t) = false := by simp [hp]
      rw [hd]
      simp only [Bool.false_eq_true, if_false]
      exact ih
    · have hd : decide (p.1 ≠ t) = true := by simp [hp]
      rw [hd]
      simp only [if_true]
      rw [getTable_cons, if_neg hp]
      exact ih

theorem getTable_append {V : Type} (l₁ l₂ : DB V) (u : String) :
    getTable (l₁ ++ l₂) u =
      match getTable l₁ u with
      | some r => some r
      | none => getTable l₂ u := by
  induction l₁ with
  | nil => rfl
  | cons p l ih =>
    rw [List.cons_append, getTable_cons, getTable_cons]
    by_cases h : p.1 = u
    · simp [h]
    · rw [if_neg h, if_neg h]
      exact ih

theorem getTable_setTable_self {V : Type} (db : DB V) (t : String) (rows : List (Row V)) :
    getTable (setTable db t rows) t = some rows := by
  rw [setTable, getTable_append, getTable_dropTable_self]
  rw [getTable_cons]
  simp

theorem getTable_setTable_ne {V : Type} (db : DB V) {t u : String} (h : u ≠ t)
    (rows : List (Row V)) : getTable (setTable db t rows) u = getTable db u := by
  rw [setTable, getTable_append, getTable_dropTable_ne db h]
  cases hg : getTable db u with
  | some r => rfl
  | none =>
    rw [getTable_cons, if_neg (fun he => h he.symm)]
    rfl

theorem dbKeys_dropTable_sub {V : Type} {db : DB V} {t u : String}
    (h : u ∈ dbKeys (dropTable db t)) : u ∈ dbKeys db := by
  rw [dbKeys] at h ⊢
  obtain ⟨p, hp, he⟩ := List.mem_map.mp h
  exact he ▸ List.mem_map_of_mem _ (List.mem_of_mem_filter hp)

theorem dbKeys_setTable_sub {V : Type} {db : DB V} {t u : String} {rows : List (Row V)}
    (h : u ∈ dbKeys (setTable db t rows)) : u = t ∨ u ∈ dbKeys db := by
  rw [setTable, dbKeys, List.map_append, List.mem_append] at h
  rcases h with h | h
  · exact Or.inr (dbKeys_dropTable_sub h)
  · simp only [List.map_cons, List.map_nil, List.mem_singleton] at h
    exact Or.inl h

theorem dbKeys_loadStep_sub {V : Type} [DecidableEq V] {prof : Profile} {db : DB V}
    {t u : String} (h : u ∈ dbKeys (loadStep prof db t).1) : u = t ∨ u ∈ dbKeys db := by
  have h2 : (loadStep prof db t).1 = setTable db t [] ∨
      (loadStep prof db t).1 =
        dropTable (setTable (setTable db t []) t ((getTable db ("stg_" ++ t)).getD []))
          ("stg_" ++ t) := by
    rw [loadStep]
    split
    · exact Or.inl rfl
    · exact Or.inr rfl
  rcases h2 with h2 | h2 <;> rw [h2] at h
  · exact dbKeys_setTable_sub h
  · rcases dbKeys_setTable_sub (dbKeys_dropTable_sub h) with h3 | h3
    · exact Or.inl h3
    · exact dbKeys_setTable_sub h3

theorem dbKeys_runLoads_sub {V : Type} [DecidableEq V] (prof : Profile) :
    ∀ (plan : List String) (db : DB V) (u : String),
      u ∈ dbKeys (runLoads prof db plan).1 → u ∈ plan ∨ u ∈ dbKeys db := by
  intro plan
  induction plan with
  | nil => intro db u h; exact Or.inr h
  | cons t rest ih =>
    intro db u h
    rw [runLoads] at h
    rcases hs : (loadStep prof db t).2 with _ | k
    · rw [hs] at h
      rcases dbKeys_loadStep_sub h with h2 | h2
      · exact Or.inl (h2 ▸ List.mem_cons_self t rest)
      · exact Or.inr h2
    · rw [hs] at h
      rcases ih (loadStep prof db t).1 u h with h2 | h2
      · exact Or.inl (List.mem_cons_of_mem t h2)
      · rcases dbKeys_loadStep_sub h2 with h3 | h3
        · exact Or.inl (h3 ▸ List.mem_cons_self t rest)
        · exact Or.inr h3

theorem dbKeys_stagingPhase_sub {V : Type} (csv : String → List (Row V)) :
    ∀ (order : List String) (db : DB V) (u : String),
      u ∈ dbKeys (stagingPhase csv order db) →
      (∃ t ∈ order, u = "stg_" ++ t) ∨ u ∈ dbKeys db := by
  intro order
  induction order with
  | nil => intro db u h; exact Or.inr h
  | cons t rest ih =>
    intro db u h
    rw [stagingPhase] at h
    rcases ih (setTable db ("stg_" ++ t) (csv t)) u h with h2 | h2
    · obtain ⟨t2, ht2, he⟩ := h2
      exact Or.inl ⟨t2, List.mem_cons_of_mem t ht2, he⟩
    · rcases dbKeys_setTable_sub h2 with h3 | h3
      · exact Or.inl ⟨t, List.mem_cons_self t rest, h3⟩
      · exact Or.inr h3

theorem loadStep_fail_state {V : Type} [DecidableEq V] {prof : Profile} {db : DB V}
    {t : String} (h : (loadStep prof db t).2 = none) :
    (loadStep prof db t).1 = setTable db t [] := by
  rw [loadStep] at h ⊢
  by_cases hc : (pkViolated (lookupSpec prof t).pk ((getTable db ("stg_" ++ t)).getD []) ||
      fkViolated (setTable db t []) (lookupSpec prof t).fks
        ((getTable db ("stg_" ++ t)).getD [])) = true
  · rw [if_pos hc]
  · rw [if_neg hc] at h
    exact absurd h (by simp)

theorem runLoads_append {V : Type} [DecidableEq V] (prof : Profile) :
    ∀ (pre rest : List String) (db : DB V), (runLoads prof db pre).2.2 = none →
      runLoads prof db (pre ++ rest) =
        ((runLoads prof (runLoads prof db pre).1 rest).1,
         (runLoads prof db pre).2.1 ++ (runLoads prof (runLoads prof db pre).1 rest).2.1,
         (runLoads prof (runLoads prof db pre).1 rest).2.2) := by
  intro pre
  induction pre with
  | nil =>
    intro rest db h
    rfl
  | cons t pre ih =>
    intro rest db h
    rcases hs : (loadStep prof db t).2 with _ | k
    · rw [runLoads, hs] at h
      cases h
    · rw [List.cons_append, runLoads, hs, runLoads, hs]
      rw [runLoads, hs] at h
      rw [ih rest (loadStep prof db t).1 h]
      rfl

/-! ### Claim theorems: Staged Bulk Loader -/

/-- C7.  When copying a table's staged rows into its constrained table violates
the primary-key or a foreign-key constraint, the load fails at that table: the
engine error propagates uncaught (`isSome`), the database is frozen in the
state reached at the failure (table `t` created but empty), no later table of
the plan is materialized, and every table loaded before the failure is left in
place with its contents. -/
theorem build_load_failure_aborts {V : Type} [DecidableEq V] (prof : Profile)
    (db : DB V) (pre post : List String) (t : String)
    (hok : (runLoads prof db pre).2.2 = none)
    (hfail : (loadStep prof (runLoads prof db pre).1 t).2 = none) :
    (runLoads prof db (pre ++ t :: post)).2.2.isSome = true ∧
    (runLoads prof db (pre ++ t :: post)).1 = setTable (runLoads prof db pre).1 t [] ∧
    (∀ u, u ∈ post → u ∉ dbKeys db → u ∉ pre → u ≠ t →
      u ∉ dbKeys (runLoads prof db (pre ++ t :: post)).1) ∧
    (∀ u, u ≠ t →
      getTable (runLoads prof db (pre ++ t :: post)).1 u =
        getTable (runLoads prof db pre).1 u) := by
  have happ := runLoads_append prof pre (t :: post) db hok
  have hstep : runLoads prof (runLoads prof db pre).1 (t :: post) =
      ((loadStep prof (runLoads prof db pre).1 t).1, [],
        some ("Constraint Error: " ++ t)) := by
    rw [runLoads, hfail]
  have h1 : (runLoads prof db (pre ++ t :: post)).1 =
      setTable (runLoads prof db pre).1 t [] := by
    rw [happ, hstep, loadStep_fail_state hfail]
  have h2 : (runLoads prof db (pre ++ t :: post)).2.2 =
      some ("Constraint Error: " ++ t) := by
    rw [happ, hstep]
  refine ⟨by rw [h2]; rfl, h1, ?_, ?_⟩
  · intro u hupost hudb hupre hut hmem
    rw [h1] at hmem
    rcases dbKeys_setTable_sub hmem with h3 | h3
    · exact hut h3
    · rcases dbKeys_runLoads_sub prof pre db u h3 with h4 | h4
      · exact hupre h4
      · exact hudb h4
  · intro u hut
    rw [h1, getTable_setTable_ne _ hut]

/-- Witness for `build_load_failure_aborts`: loading `a.csv` with a duplicate
`id` under primary key `["id"]` fails, and table `b` later in the plan is
never materialized. -/
theorem build_load_failure_aborts_witness :
    (runLoads exProf7 exDb7 ([] ++ "a" :: ["b"])).2.2.isSome = true ∧
    "b" ∉ dbKeys (runLoads exProf7 exDb7 ([] ++ "a" :: ["b"])).1 := by
  have h := build_load_failure_aborts exProf7 exDb7 [] ["b"] "a" rfl (by decide)
  exact ⟨h.1, h.2.2.1 "b" (by decide) (by decide) (by decide) (by decide)⟩

/-- C8.  `build` is idempotent in its reported metrics: a second run against
the database produced by the first (same profile and source directory) yields
exactly the same `(table, rows)` metrics — indeed the same full result —
because the run deletes the database file and rebuilds every table from the
sources alone. -/
theorem build_metrics_idempotent {V : Type} [DecidableEq V] (prof : Profile)
    (csv : String → List (Row V)) (db0 : DB V) :
    (buildRun prof csv (buildRun prof csv db0).1).2.1 = (buildRun prof csv db0).2.1 ∧
    buildRun prof csv (buildRun prof csv db0).1 = buildRun prof csv db0 :=
  ⟨rfl, rfl⟩

/-- Witness for `build_metrics_idempotent`: rebuilding over the result of a
first build of `exProf7`. -/
theorem build_metrics_idempotent_witness :
    (buildRun exProf7 exCsv7 (buildRun exProf7 exCsv7 exOldDb).1).2.1 =
      (buildRun exProf7 exCsv7 exOldDb).2.1 :=
  (build_metrics_idempotent exProf7 exCsv7 exOldDb).1

/-- C10.  `build` deletes the database file before loading anything: its result
does not depend on the pre-existing database state at all, and every table of
the resulting database was created during the run — it is a plan table or a
staging table `stg_<t>` of one.  Pre-existing tables, including those absent
from the profile, are gone. -/
theorem build_deletes_preexisting_state {V : Type} [DecidableEq V] (prof : Profile)
    (csv : String → List (Row V)) (db0 : DB V) :
    buildRun prof csv db0 = buildRun prof csv ([] : DB V) ∧
    ∀ u, u ∈ dbKeys (buildRun prof csv db0).1 →
      u ∈ toposortTables prof ∨ ∃ t ∈ toposortTables prof, u = "stg_" ++ t := by
  refine ⟨rfl, ?_⟩
  intro u hu
  have hu2 : u ∈ dbKeys
      (runLoads prof (stagingPhase csv (toposortTables prof) ([] : DB V))
        (toposortTables prof)).1 := hu
  rcases dbKeys_runLoads_sub prof (toposortTables prof)
      (stagingPhase csv (toposortTables prof) ([] : DB V)) u hu2 with h | h
  · exact Or.inl h
  · rcases dbKeys_stagingPhase_sub csv (toposortTables prof) ([] : DB V) u h with h2 | h2
    · exact Or.inr h2
    · cases h2

/-- Witness for `build_deletes_preexisting_state`: a database holding a
`legacy` table yields the same build result as an empty one. -/
theorem build_deletes_preexisting_state_witness :
    buildRun exProf7 exCsv7 exOldDb = buildRun exProf7 exCsv7 ([] : DB Int) :=
  (build_deletes_preexisting_state exProf7 exCsv7 exOldDb).1
